import Mathlib

/-!
Shallow embedding of the image-promotion step of the CI pipeline orchestrator
(`pkg/steps/release/promote.go`), together with proofs of the spec's testable
properties about it.

Go `map[string]V` values are embedded as association lists `List (String × V)`
with unique keys maintained by `mapInsert`; `sets.String` is embedded as a
duplicate-free `List String`.  Go map *enumeration order* is unspecified, so
wherever the source ranges over a map and the result could depend on that
order, the fold is factored out (`promoteFold`) so the order-(in)dependence
can be analysed explicitly.
-/

/-- Lookup in an association list embedding of a Go `map[string]V`. -/
def mapFind {α : Type} (m : List (String × α)) (k : String) : Option α :=
  match m with
  | [] => none
  | p :: rest => if p.1 = k then some p.2 else mapFind rest k

/-- Update/insert in an association list embedding of a Go `map[string]V`:
overwrites the first binding of the key in place, else appends. -/
def mapInsert {α : Type} (m : List (String × α)) (k : String) (v : α) : List (String × α) :=
  match m with
  | [] => [(k, v)]
  | p :: rest => if p.1 = k then (k, v) :: rest else p :: mapInsert rest k v

/-- Deletion from an association list embedding of a Go `map[string]V`
(Go `delete(m, k)`). -/
def mapErase {α : Type} (m : List (String × α)) (k : String) : List (String × α) :=
  m.filter (fun p => p.1 ≠ k)

/-- Embedding of `sets.String.Insert`. -/
def setInsert (s : List String) (x : String) : List String :=
  if s.contains x then s else s ++ [x]

/-- Embedding of `sets.String.Delete`. -/
def setDelete (s : List String) (x : String) : List String :=
  s.filter (fun y => y ≠ x)

/-- Embedding of `api.ImageStreamTagReference` (namespace/name:tag); the Go
field `Namespace` is rendered `ns` because `namespace` is a Lean keyword. -/
structure ImageStreamTagReference where
  ns : String
  name : String
  tag : String
deriving DecidableEq

/-- Modelled from the spec: the destination reference `<namespace>/<name>:<tag>`
rendered as one string; `api.ImageStreamTagReference.ISTagName` is not under
`src/`, only its callers are. -/
def ImageStreamTagReference.istagName (r : ImageStreamTagReference) : String :=
  r.ns ++ "/" ++ r.name ++ ":" ++ r.tag

/-- Embedding of `api.PromotionConfiguration` (§6 of the spec). -/
structure PromotionConfiguration where
  disabled : Bool
  ns : String
  name : String
  tag : String
  registryOverride : String
  excludedImages : List String
  additionalImages : List (String × String)
  disableBuildCache : Bool
deriving DecidableEq

/-- Embedding of `api.ProjectDirectoryImageBuildStepConfiguration`, restricted
to the two fields `toPromote` reads: the destination tag `To` (rendered
`toTag` because `to` is a Lean keyword) and `Optional`. -/
structure ProjectDirectoryImageBuildStepConfiguration where
  toTag : String
  optional : Bool
deriving DecidableEq

/-- Embedding of `api.Metadata`, the repository coordinates of a configuration. -/
structure Metadata where
  org : String
  repo : String
  branch : String
  variant : String
deriving DecidableEq

/-- Embedding of `api.ReleaseBuildConfiguration`, restricted to the fields that
the promotion step reads. -/
structure ReleaseBuildConfiguration where
  promotionConfiguration : Option PromotionConfiguration
  images : List ProjectDirectoryImageBuildStepConfiguration
  binaryBuildCommands : String
  metadata : Metadata
deriving DecidableEq

/-- Modelled from the spec: the pipeline tag naming the binaries artifact of a
binary build ("the binaries artifact", §4.2); the constant
`api.PipelineImageStreamTagReferenceBinaries` is not under `src/`. -/
def PipelineImageStreamTagReferenceBinaries : String := "bin"

/-- Modelled from the spec: "a derived build-cache reference" computed from the
configuration's metadata (§4.2); `api.BuildCacheFor` is not under `src/`.  The
claims treat this derivation as opaque, only its use as the binaries entry
matters. -/
def BuildCacheFor (m : Metadata) : ImageStreamTagReference :=
  { ns := "build-cache", name := m.org ++ "/" ++ m.repo, tag := m.branch }

/-- Modelled from the spec: the externally reachable service registry domain
(`api.DomainForService(api.ServiceRegistry)` is not under `src/`). -/
def DomainForServiceRegistry : String := "registry.ci.openshift.org"

/-- Embedding of `registryDomain` (promote.go:80): the registry we promote to,
with `RegistryOverride` taking precedence. -/
def registryDomain (configuration : PromotionConfiguration) : String :=
  if configuration.registryOverride ≠ "" then configuration.registryOverride
  else DomainForServiceRegistry

/-- Embedding of `targetName` (promote.go:34). -/
def targetName (config : PromotionConfiguration) : String :=
  if config.name ≠ "" then config.ns ++ "/" ++ config.name ++ ":$\x7bcomponent\x7d"
  else config.ns ++ "/$\x7bcomponent\x7d:" ++ config.tag

/-- Embedding of `toPromote` (promote.go:190): the mapping of destination tag to
source tag which should be promoted, and the set of destination names.  The
three loops of the source become three folds; the two slice loops (`images`,
`ExcludedImages`) are order-faithful, and the Go-map loop over
`AdditionalImages` writes pairwise distinct keys, so its enumeration order is
irrelevant to the result. -/
def toPromote (config : PromotionConfiguration)
    (images : List ProjectDirectoryImageBuildStepConfiguration)
    (requiredImages : List String) :
    List (String × String) × List String :=
  if config.disabled then ([], [])
  else
    let afterImages := images.foldl
      (fun acc image =>
        if requiredImages.contains image.toTag || !image.optional then
          (mapInsert acc.1 image.toTag image.toTag, setInsert acc.2 image.toTag)
        else acc)
      ([], [])
    let afterExcluded := config.excludedImages.foldl
      (fun acc tag => (mapErase acc.1 tag, setDelete acc.2 tag)) afterImages
    config.additionalImages.foldl
      (fun acc p => (mapInsert acc.1 p.1 p.2, setInsert acc.2 p.1)) afterExcluded

/-- Embedding of the destination reference construction inside
`PromotedTagsWithRequiredImages` (promote.go:241-254): fixed-name mode vs
fixed-tag mode. -/
def promoteDst (pc : PromotionConfiguration) (dst : String) : ImageStreamTagReference :=
  if pc.name ≠ "" then { ns := pc.ns, name := pc.name, tag := dst }
  else { ns := pc.ns, name := dst, tag := pc.tag }

/-- Embedding of the `for dst, src := range tags` loop of
`PromotedTagsWithRequiredImages` (promote.go:240-256), parameterized by the
enumeration order of the `tags` map: the result is keyed by the *source* tag,
so a later pair with the same source overwrites an earlier one. -/
def promoteFold (pc : PromotionConfiguration) (tags : List (String × String)) :
    List (String × ImageStreamTagReference) :=
  tags.foldl (fun acc p => mapInsert acc p.2 (promoteDst pc p.1)) []

/-- Embedding of `PromotedTagsWithRequiredImages` (promote.go:234): the promoted
tags mapped by source tag in the pipeline image stream, plus the destination
name set.  The Go `nil, nil` result is embedded as `([], [])`. -/
def PromotedTagsWithRequiredImages (configuration : Option ReleaseBuildConfiguration)
    (requiredImages : List String) :
    List (String × ImageStreamTagReference) × List String :=
  match configuration with
  | none => ([], [])
  | some c =>
    match c.promotionConfiguration with
    | none => ([], [])
    | some pc =>
      if pc.disabled then ([], [])
      else
        let tn := toPromote pc c.images requiredImages
        let promotedTags := promoteFold pc tn.1
        let promotedTags :=
          if c.binaryBuildCommands ≠ "" ∧ pc.disableBuildCache = false then
            mapInsert promotedTags PipelineImageStreamTagReferenceBinaries
              (BuildCacheFor c.metadata)
          else promotedTags
        (promotedTags, tn.2)

/-- Embedding of `PromotedTags` (promote.go:219): the promoted destination
references, sorted by their rendered name. -/
def PromotedTags (configuration : Option ReleaseBuildConfiguration) :
    List ImageStreamTagReference :=
  let mapping := (PromotedTagsWithRequiredImages configuration []).1
  List.insertionSort (fun a b : ImageStreamTagReference => a.istagName ≤ b.istagName)
    (mapping.map (fun p => p.2))

/-- Embedding of `imagev1.TagEvent`, restricted to the pull reference. -/
structure TagEvent where
  dockerImageReference : String
deriving DecidableEq

/-- Embedding of `imagev1.NamedTagEventList`: one status entry of an image
stream, a tag name with its event items. -/
structure NamedTagEventList where
  tag : String
  items : List TagEvent
deriving DecidableEq

/-- Embedding of `imagev1.ImageStreamStatus`, restricted to the fields the
promotion step reads. -/
structure ImageStreamStatus where
  publicDockerImageRepository : String
  tags : List NamedTagEventList
deriving DecidableEq

/-- Embedding of `imagev1.ImageStream`, restricted to its status. -/
structure ImageStream where
  status : ImageStreamStatus
deriving DecidableEq

/-- Embedding of `findDockerImageReference` (promote.go:176): the pull
reference recorded for a tag in the stream's status, or `""` when the tag has
no status entry or the entry has no items. -/
def findDockerImageReference (is : ImageStream) (tag : String) : String :=
  match is.status.tags.find? (fun t => t.tag = tag) with
  | some t =>
    match t.items with
    | [] => ""
    | i :: _ => i.dockerImageReference
  | none => ""

/-- Embedding of Go `strings.Contains` on character lists: `sub` occurs as a
contiguous substring. -/
def containsSub (s sub : List Char) : Bool :=
  match s with
  | [] => sub.isEmpty
  | _ :: t => sub.isPrefixOf s || containsSub t sub

/-- Embedding of Go `strings.Contains`. -/
def goContains (s sub : String) : Bool := containsSub s.data sub.data

/-- Embedding of Go `strings.Split` with a one-character separator, on
character lists: splits at every occurrence, keeping empty pieces. -/
def charListSplit (sep : Char) : List Char → List (List Char)
  | [] => [[]]
  | c :: t =>
    if c = sep then [] :: charListSplit sep t
    else
      match charListSplit sep t with
      | [] => [[c]]
      | w :: ws => (c :: w) :: ws

/-- Embedding of Go `strings.Split(s, sep)` for a one-character separator. -/
def goSplit (s : String) (sep : Char) : List String :=
  (charListSplit sep s.data).map fun l => { data := l }

/-- Embedding of Go `strings.Replace(s, old, new, 1)` on character lists:
replaces the first (leftmost) occurrence of `old`; inserting at the front when
`old` is empty, and leaving the list unchanged when `old` never occurs. -/
def replaceFirst (old new : List Char) : List Char → List Char
  | [] => if old.isEmpty then new else []
  | c :: t =>
    if old.isPrefixOf (c :: t) then new ++ (c :: t).drop old.length
    else c :: replaceFirst old new t

/-- Embedding of Go `strings.Replace(s, old, new, 1)`. -/
def goReplaceOnce (s old new : String) : String :=
  { data := replaceFirst old.data new.data s.data }

/-- Embedding of `getPublicImageReference` (promote.go:107): rewrite an
internal-registry pull reference (recognized by `":5000"` occurring in it) so
that its host is the host of the stream's public repository; on any failure to
split out the hosts the reference is returned unchanged. -/
def getPublicImageReference (dockerImageReference publicDockerImageRepository : String) :
    String :=
  if !goContains dockerImageReference ":5000" then dockerImageReference
  else
    let splits := goSplit publicDockerImageRepository '/'
    if splits.length < 2 then dockerImageReference
    else
      let publicHost := splits.headD ""
      let splits2 := goSplit dockerImageReference '/'
      if splits2.length < 2 then dockerImageReference
      else goReplaceOnce dockerImageReference (splits2.headD "") publicHost

/-- Embedding of `getImageMirrorTarget` (promote.go:88): for each promoted
source tag with a recorded pull reference, map the (publicised) pull reference
to its destination on the promotion registry; tags without a recorded
reference are skipped.  The Go `nil` results (nil stream, empty map) are both
embedded as `[]`.  The fold follows the given enumeration order of `tags`. -/
def getImageMirrorTarget (tags : List (String × ImageStreamTagReference))
    (pipeline : Option ImageStream) (registry : String) : List (String × String) :=
  match pipeline with
  | none => []
  | some p =>
    tags.foldl
      (fun acc q =>
        let dockerImageReference := findDockerImageReference p q.1
        if dockerImageReference = "" then acc
        else
          mapInsert acc
            (getPublicImageReference dockerImageReference p.status.publicDockerImageRepository)
            (registry ++ "/" ++ q.2.istagName))
      []

/-- Modelled from the spec: the mount path of the central registry push
credentials (`api.RegistryPushCredentialsCICentralSecretMountPath` is not
under `src/`; §6 "a registry-credentials file path"). -/
def RegistryPushCredentialsCICentralSecretMountPath : String := "/etc/push-secret"

/-- Modelled from the spec: the name of the central registry push-credentials
secret (`api.RegistryPushCredentialsCICentralSecret` is not under `src/`). -/
def RegistryPushCredentialsCICentralSecret : String := "registry-push-credentials-ci-central"

/-- Embedding of `coreapi.DockerConfigJsonKey`. -/
def DockerConfigJsonKey : String := ".dockerconfigjson"

/-- Embedding of `coreapi.VolumeMount`, restricted to the fields set. -/
structure VolumeMount where
  name : String
  mountPath : String
  readOnly : Bool
deriving DecidableEq

/-- Embedding of `coreapi.Container`, restricted to the fields set. -/
structure Container where
  name : String
  image : String
  command : List String
  args : List String
  volumeMounts : List VolumeMount
deriving DecidableEq

/-- Embedding of `coreapi.Volume` with a secret volume source. -/
structure Volume where
  name : String
  secretName : String
deriving DecidableEq

/-- Embedding of `coreapi.PodSpec`, restricted to the fields set. -/
structure PodSpec where
  restartPolicyNever : Bool
  containers : List Container
  volumes : List Volume
deriving DecidableEq

/-- Embedding of `coreapi.Pod`, restricted to the fields set; `ns` renders the
object metadata `Namespace`. -/
structure Pod where
  name : String
  ns : String
  spec : PodSpec
deriving DecidableEq

/-- Embedding of the key collection and `sort.Strings` call of
`getPromotionPod` (promote.go:128-132): the mirror-map keys in lexicographic
order. -/
def promotionSortedKeys (imageMirrorTarget : List (String × String)) : List String :=
  List.insertionSort (fun a b : String => a ≤ b) (imageMirrorTarget.map (fun p => p.1))

/-- Embedding of `getPromotionPod` (promote.go:127): the one-container pod that
mirrors all `source=destination` pairs, serialized in sorted key order. -/
def getPromotionPod (imageMirrorTarget : List (String × String)) (ns : String) : Pod :=
  let keys := promotionSortedKeys imageMirrorTarget
  let images := keys.map (fun k => k ++ "=" ++ (mapFind imageMirrorTarget k).getD "")
  let command := ["/bin/sh", "-c"]
  let args := ["oc image mirror --registry-config=" ++
    RegistryPushCredentialsCICentralSecretMountPath ++ "/" ++ DockerConfigJsonKey ++
    " --continue-on-error=true --max-per-registry=20 " ++ String.intercalate " " images]
  { name := "promotion"
    ns := ns
    spec :=
      { restartPolicyNever := true
        containers :=
          [{ name := "promotion"
             image := DomainForServiceRegistry ++ "/ocp/4.8:cli"
             command := command
             args := args
             volumeMounts := [{ name := "push-secret", mountPath := "/etc/push-secret", readOnly := true }] }]
        volumes := [{ name := "push-secret", secretName := RegistryPushCredentialsCICentralSecret }] } }

/-- Outcome of one invocation of the promotion step's `run`:
`ok fetchedStream createdPod` is a nil return recording whether the pipeline
image stream was fetched and which promotion pod (if any) was submitted;
`err` is a non-nil return. -/
inductive RunResult where
  | ok (fetchedStream : Bool) (createdPod : Option Pod)
  | err (msg : String)
deriving DecidableEq

/-- Embedding of `promotionStep.run` (promote.go:51): the cluster `Get` of the
pipeline image stream is abstracted as the `getPipeline` argument, and the
submitted pod (whose execution is external) is recorded in the result.  The
`err` branch for a missing promotion configuration is unreachable when the
name set is non-empty (in Go it would be a nil dereference). -/
def run (configuration : Option ReleaseBuildConfiguration) (requiredImages : List String)
    (jobSpecNamespace : String) (getPipeline : Except String ImageStream) : RunResult :=
  let tn := PromotedTagsWithRequiredImages configuration requiredImages
  if tn.2.isEmpty then RunResult.ok false none
  else
    match configuration.bind (fun c => c.promotionConfiguration) with
    | none => RunResult.err "invalid configuration: no promotion configuration"
    | some pc =>
      match getPipeline with
      | Except.error e => RunResult.err ("could not resolve pipeline imagestream: " ++ e)
      | Except.ok pipeline =>
        let imageMirrorTarget := getImageMirrorTarget tn.1 (some pipeline) (registryDomain pc)
        if imageMirrorTarget.isEmpty then RunResult.ok true none
        else RunResult.ok true (some (getPromotionPod imageMirrorTarget jobSpecNamespace))

theorem mapFind_mapInsert {α : Type} (m : List (String × α)) (k : String) (v : α)
    (k' : String) :
    mapFind (mapInsert m k v) k' = if k = k' then some v else mapFind m k' := by
  induction m with
  | nil => simp [mapInsert, mapFind]
  | cons p rest ih =>
    by_cases h : p.1 = k
    · simp only [mapInsert, if_pos h, mapFind]
      by_cases h' : k = k'
      · simp [h']
      · simp [h', h ▸ h']
    · simp only [mapInsert, if_neg h, mapFind, ih]
      by_cases h' : p.1 = k'
      · have hk : ¬k = k' := fun he => h (h'.trans he.symm)
        simp [h', hk]
      · simp [h']

theorem find?_append_or {α : Type} (p : α → Bool) (l₁ l₂ : List α) :
    (l₁ ++ l₂).find? p = ((l₁.find? p).orElse fun _ => l₂.find? p) := by
  induction l₁ with
  | nil => rfl
  | cons a t ih =>
    by_cases h : p a
    · simp [List.find?_cons_of_pos, h]
    · simp only [List.cons_append]
      rw [List.find?_cons_of_neg _ (by simpa using h), List.find?_cons_of_neg _ (by simpa using h)]
      exact ih

theorem mapFind_foldl_ins {α β : Type} (key : α → String) (val : α → β)
    (F : List (String × β) → α → List (String × β))
    (hF : ∀ a x, F a x = mapInsert a (key x) (val x))
    (l : List α) (m : List (String × β)) (k : String) :
    mapFind (l.foldl F m) k
      = (l.reverse.find? (fun x => key x = k)).elim (mapFind m k) (fun x => some (val x)) := by
  induction l generalizing m with
  | nil => rfl
  | cons x t ih =>
    rw [List.foldl_cons, ih, List.reverse_cons, find?_append_or]
    cases hf : t.reverse.find? (fun x => key x = k) with
    | some y => rfl
    | none =>
      simp only [Option.orElse, hF]
      by_cases hx : key x = k
      · simp [List.find?, hx, mapFind_mapInsert, Option.elim]
      · simp [List.find?, hx, mapFind_mapInsert, Option.elim]

theorem mapFind_foldl_insPairs {β : Type} (l m : List (String × β)) (k : String) :
    mapFind (l.foldl (fun a p => mapInsert a p.1 p.2) m) k
      = (l.reverse.find? (fun p => p.1 = k)).elim (mapFind m k) (fun p => some p.2) :=
  mapFind_foldl_ins (fun p => p.1) (fun p => p.2) _ (fun _ _ => rfl) l m k

theorem mapFind_promoteFold (pc : PromotionConfiguration) (l : List (String × String))
    (k : String) :
    mapFind (promoteFold pc l) k
      = (l.reverse.find? (fun p => p.2 = k)).elim none (fun p => some (promoteDst pc p.1)) := by
  unfold promoteFold
  exact mapFind_foldl_ins (fun p => p.2) (fun p => promoteDst pc p.1) _ (fun _ _ => rfl) l [] k

theorem mapFind_mapErase {α : Type} (m : List (String × α)) (k k' : String) :
    mapFind (mapErase m k) k' = if k = k' then none else mapFind m k' := by
  induction m with
  | nil => simp [mapErase, mapFind]
  | cons p rest ih =>
    by_cases h : p.1 = k
    · simp only [mapErase, List.filter_cons] at ih ⊢
      rw [if_neg (by simp [h])]
      rw [ih]
      by_cases h' : k = k'
      · simp [h']
      · have : ¬p.1 = k' := fun he => h' (h.symm.trans he)
        simp [h', mapFind, this]
    · simp only [mapErase, List.filter_cons] at ih ⊢
      rw [if_pos (by simp [h])]
      simp only [mapFind, ih]
      by_cases h' : p.1 = k'
      · have : ¬k = k' := fun he => h (h'.trans he.symm)
        simp [h', this]
      · simp [h']

theorem mapFind_foldl_erase {α : Type} (l : List String) (m : List (String × α)) (k : String) :
    mapFind (l.foldl (fun a t => mapErase a t) m) k = if k ∈ l then none else mapFind m k := by
  induction l generalizing m with
  | nil => simp
  | cons t rest ih =>
    rw [List.foldl_cons, ih, mapFind_mapErase]
    by_cases h1 : k ∈ rest
    · simp [h1]
    · by_cases h2 : t = k
      · simp [h1, h2]
      · have hkt : ¬k = t := fun he => h2 he.symm
        have hmem : ¬k ∈ t :: rest := by simp [List.mem_cons, h1, hkt]
        simp [h1, h2, hmem]

theorem foldl_prod {α γ δ : Type} (f' : γ × δ → α → γ × δ) (f : γ → α → γ) (g : δ → α → δ)
    (h : ∀ a x, f' a x = (f a.1 x, g a.2 x)) (l : List α) (p : γ × δ) :
    l.foldl f' p = (l.foldl f p.1, l.foldl g p.2) := by
  induction l generalizing p with
  | nil => rfl
  | cons x t ih =>
    rw [List.foldl_cons, ih, h]
    rfl

theorem find?_eq_some_of_unique {α : Type} (p : α → Bool) (l : List α) (a : α)
    (ha : a ∈ l) (hpa : p a = true) (huniq : ∀ b ∈ l, p b = true → b = a) :
    l.find? p = some a := by
  induction l with
  | nil => cases ha
  | cons x t ih =>
    by_cases hx : p x = true
    · have hxa : x = a := huniq x (List.mem_cons_self x t) hx
      rw [List.find?_cons_of_pos _ hx, hxa]
    · have hax : a ∈ t := by
        rcases List.mem_cons.mp ha with he | hm
        · exact absurd (he ▸ hpa) hx
        · exact hm
      rw [List.find?_cons_of_neg _ (by simpa using hx)]
      exact ih hax (fun b hb hpb => huniq b (List.mem_cons_of_mem _ hb) hpb)

theorem find?_eq_of_perm_unique {α : Type} (p : α → Bool) (l l' : List α)
    (hperm : l.Perm l')
    (huniq : ∀ a ∈ l, ∀ b ∈ l, p a = true → p b = true → a = b) :
    l.find? p = l'.find? p := by
  cases hf : l.find? p with
  | none =>
    have hnone : ∀ x ∈ l, ¬p x = true := by
      intro x hx
      exact by simpa using List.find?_eq_none.mp hf x hx
    symm
    rw [List.find?_eq_none]
    intro x hx
    exact hnone x (hperm.mem_iff.mpr hx)
  | some a =>
    have hpa : p a = true := List.find?_some hf
    have hal : a ∈ l := List.mem_of_find?_eq_some hf
    cases hf' : l'.find? p with
    | none =>
      exact absurd hpa (by simpa using List.find?_eq_none.mp hf' a (hperm.mem_iff.mp hal))
    | some b =>
      have hpb : p b = true := List.find?_some hf'
      have hbl : b ∈ l := hperm.mem_iff.mpr (List.mem_of_find?_eq_some hf')
      rw [huniq a hal b hbl hpa hpb]

theorem mapFind_eq_find? {α : Type} (m : List (String × α)) (k : String) :
    mapFind m k = (m.find? (fun p => p.1 = k)).map (fun p => p.2) := by
  induction m with
  | nil => rfl
  | cons p rest ih =>
    by_cases h : p.1 = k
    · rw [List.find?_cons_of_pos _ (by simpa using h)]
      simp [mapFind, h]
    · rw [List.find?_cons_of_neg _ (by simpa using h)]
      simp [mapFind, h, ih]

theorem mapFind_perm {α : Type} (m m' : List (String × α))
    (hperm : m'.Perm m) (hnd : (m.map (fun p => p.1)).Nodup) (k : String) :
    mapFind m' k = mapFind m k := by
  rw [mapFind_eq_find?, mapFind_eq_find?]
  rw [find?_eq_of_perm_unique _ m' m hperm]
  intro a ha b hb hpa hpb
  have ha' : a ∈ m := hperm.mem_iff.mp ha
  have hb' : b ∈ m := hperm.mem_iff.mp hb
  have hak : a.1 = k := by simpa using hpa
  have hbk : b.1 = k := by simpa using hpb
  exact List.inj_on_of_nodup_map hnd ha' hb' (hak.trans hbk.symm)

theorem foldl_eq_foldl_filter {α γ : Type} (f : γ → α → γ) (keep : α → Bool)
    (h : ∀ a x, keep x = false → f a x = a) (l : List α) (a : γ) :
    l.foldl f a = (l.filter keep).foldl f a := by
  induction l generalizing a with
  | nil => rfl
  | cons x t ih =>
    by_cases hk : keep x = true
    · rw [List.foldl_cons, List.filter_cons, if_pos hk, List.foldl_cons, ih]
    · rw [List.foldl_cons, List.filter_cons, if_neg hk, h a x (by simpa using hk), ih]

theorem toPromote_eq (config : PromotionConfiguration)
    (images : List ProjectDirectoryImageBuildStepConfiguration)
    (requiredImages : List String) (h : config.disabled = false) :
    toPromote config images requiredImages =
      (config.additionalImages.foldl (fun a p => mapInsert a p.1 p.2)
        (config.excludedImages.foldl (fun a t => mapErase a t)
          (images.foldl
            (fun a image =>
              if requiredImages.contains image.toTag || !image.optional then
                mapInsert a image.toTag image.toTag
              else a)
            [])),
       config.additionalImages.foldl (fun s p => setInsert s p.1)
        (config.excludedImages.foldl (fun s t => setDelete s t)
          (images.foldl
            (fun s image =>
              if requiredImages.contains image.toTag || !image.optional then
                setInsert s image.toTag
              else s)
            []))) := by
  have h1 := foldl_prod
    (fun (acc : List (String × String) × List String)
        (image : ProjectDirectoryImageBuildStepConfiguration) =>
      if requiredImages.contains image.toTag || !image.optional then
        (mapInsert acc.1 image.toTag image.toTag, setInsert acc.2 image.toTag)
      else acc)
    (fun (a : List (String × String)) (image : ProjectDirectoryImageBuildStepConfiguration) =>
      if requiredImages.contains image.toTag || !image.optional then
        mapInsert a image.toTag image.toTag
      else a)
    (fun (s : List String) (image : ProjectDirectoryImageBuildStepConfiguration) =>
      if requiredImages.contains image.toTag || !image.optional then
        setInsert s image.toTag
      else s)
    (by
      intro a x
      by_cases hp : x.toTag ∈ requiredImages ∨ x.optional = false <;> simp [hp])
  have h2 := foldl_prod
    (fun (acc : List (String × String) × List String) (tag : String) =>
      (mapErase acc.1 tag, setDelete acc.2 tag))
    (fun (a : List (String × String)) (t : String) => mapErase a t)
    (fun (s : List String) (t : String) => setDelete s t) (fun _ _ => rfl)
  have h3 := foldl_prod
    (fun (acc : List (String × String) × List String) (p : String × String) =>
      (mapInsert acc.1 p.1 p.2, setInsert acc.2 p.1))
    (fun (a : List (String × String)) (p : String × String) => mapInsert a p.1 p.2)
    (fun (s : List String) (p : String × String) => setInsert s p.1) (fun _ _ => rfl)
  unfold toPromote
  rw [if_neg (by simp [h])]
  simp only [h1, h2, h3]

theorem toPromote_fst (config : PromotionConfiguration)
    (images : List ProjectDirectoryImageBuildStepConfiguration)
    (requiredImages : List String) (h : config.disabled = false) :
    (toPromote config images requiredImages).1 =
      config.additionalImages.foldl (fun a p => mapInsert a p.1 p.2)
        (config.excludedImages.foldl (fun a t => mapErase a t)
          (images.foldl
            (fun a image =>
              if requiredImages.contains image.toTag || !image.optional then
                mapInsert a image.toTag image.toTag
              else a)
            [])) := by
  rw [toPromote_eq config images requiredImages h]

/-- Concrete promotion configuration of the spec's scenario (§8): `a`
excluded, additional alias `c` mapping to `b`. -/
def specScenarioConfig : PromotionConfiguration :=
  { disabled := false, ns := "ocp", name := "", tag := "4.8", registryOverride := "",
    excludedImages := ["a"], additionalImages := [("c", "b")], disableBuildCache := false }

/-- Concrete image list of the spec's scenario (§8): `a` required (via the
required-image set), `b` optional. -/
def specScenarioImages : List ProjectDirectoryImageBuildStepConfiguration :=
  [{ toTag := "a", optional := true }, { toTag := "b", optional := true }]

/-- C1: the tag map returned by `toPromote` has no entry at a destination tag
listed in `ExcludedImages` unless that destination is re-added by
`AdditionalImages`; in particular a required (or non-optional) image-list
entry is still removed — exclusion wins over inclusion. -/
theorem toPromote_excluded_never_promoted (config : PromotionConfiguration)
    (images : List ProjectDirectoryImageBuildStepConfiguration)
    (requiredImages : List String) (t : String)
    (hex : t ∈ config.excludedImages)
    (hadd : ∀ p ∈ config.additionalImages, p.1 ≠ t) :
    mapFind (toPromote config images requiredImages).1 t = none := by
  cases hd : config.disabled with
  | true => simp [toPromote, hd, mapFind]
  | false =>
    rw [toPromote_fst config images requiredImages hd, mapFind_foldl_insPairs]
    have hnone : config.additionalImages.reverse.find? (fun p => p.1 = t) = none := by
      rw [List.find?_eq_none]
      intro p hp
      simpa using hadd p (List.mem_reverse.mp hp)
    rw [hnone]
    simp only [Option.elim]
    rw [mapFind_foldl_erase]
    simp [hex]

/-- C1 witness: the spec's concrete scenario — images `a` (required) and `b`
(optional), `ExcludedImages=[a]`, `AdditionalImages={c: b}` — promotes only
`{c: b}`; `a` is excluded despite being in the required set. -/
theorem toPromote_excluded_never_promoted_witness :
    ("a" ∈ specScenarioConfig.excludedImages
      ∧ ∀ p ∈ specScenarioConfig.additionalImages, p.1 ≠ "a")
    ∧ mapFind (toPromote specScenarioConfig specScenarioImages ["a"]).1 "a" = none
    ∧ toPromote specScenarioConfig specScenarioImages ["a"] = ([("c", "b")], ["c"]) :=
  ⟨⟨by decide, by decide⟩,
   toPromote_excluded_never_promoted specScenarioConfig specScenarioImages ["a"] "a"
     (by decide) (by decide),
   by decide⟩

/-- C2: every `(destination, source)` pair of `AdditionalImages` ends up in the
tag map returned by `toPromote`, overriding any entry previously computed from
the image list or removed by the exclusion list. -/
theorem toPromote_additional_overrides (config : PromotionConfiguration)
    (images : List ProjectDirectoryImageBuildStepConfiguration)
    (requiredImages : List String) (dst src : String)
    (hnd : (config.additionalImages.map (fun p => p.1)).Nodup)
    (hmem : (dst, src) ∈ config.additionalImages)
    (hdis : config.disabled = false) :
    mapFind (toPromote config images requiredImages).1 dst = some src := by
  rw [toPromote_fst config images requiredImages hdis, mapFind_foldl_insPairs]
  have hfind : config.additionalImages.reverse.find? (fun p => p.1 = dst)
      = some (dst, src) := by
    apply find?_eq_some_of_unique
    · exact List.mem_reverse.mpr hmem
    · simp
    · intro b hb hpb
      have hb' : b ∈ config.additionalImages := List.mem_reverse.mp hb
      have hbk : b.1 = dst := by simpa using hpb
      exact List.inj_on_of_nodup_map hnd hb' hmem hbk
  rw [hfind]
  rfl

/-- C2 witness: in the spec's concrete scenario the additional pair `(c, b)`
is present in the resulting tag map. -/
theorem toPromote_additional_overrides_witness :
    ((specScenarioConfig.additionalImages.map (fun p => p.1)).Nodup
      ∧ ("c", "b") ∈ specScenarioConfig.additionalImages
      ∧ specScenarioConfig.disabled = false)
    ∧ mapFind (toPromote specScenarioConfig specScenarioImages ["a"]).1 "c" = some "b" :=
  ⟨⟨by decide, by decide, by decide⟩,
   toPromote_additional_overrides specScenarioConfig specScenarioImages ["a"] "c" "b"
     (by decide) (by decide) (by decide)⟩

/-- Concrete disabled promotion configuration for the no-op scenario. -/
def disabledPromotionConfig : PromotionConfiguration :=
  { disabled := true, ns := "ocp", name := "", tag := "4.8", registryOverride := "",
    excludedImages := [], additionalImages := [], disableBuildCache := false }

/-- Concrete configuration whose promotion is disabled. -/
def disabledConfig : ReleaseBuildConfiguration :=
  { promotionConfiguration := some disabledPromotionConfig,
    images := [{ toTag := "a", optional := false }], binaryBuildCommands := "make",
    metadata := { org := "org", repo := "repo", branch := "main", variant := "" } }

/-- C3: with promotion disabled (configuration absent, promotion configuration
absent, or `Disabled` set) the promoted tag map and name set are empty and
`run` is a no-op success: no image stream fetch, no pod. -/
theorem promotion_disabled_is_noop (configuration : Option ReleaseBuildConfiguration)
    (requiredImages : List String) (jobSpecNamespace : String)
    (getPipeline : Except String ImageStream)
    (h : configuration = none
      ∨ (∃ c, configuration = some c ∧ c.promotionConfiguration = none)
      ∨ (∃ c pc, configuration = some c ∧ c.promotionConfiguration = some pc
          ∧ pc.disabled = true)) :
    PromotedTagsWithRequiredImages configuration requiredImages = ([], [])
    ∧ run configuration requiredImages jobSpecNamespace getPipeline
        = RunResult.ok false none := by
  have hempty : PromotedTagsWithRequiredImages configuration requiredImages = ([], []) := by
    rcases h with h | ⟨c, hc, hp⟩ | ⟨c, pc, hc, hp, hd⟩
    · rw [h]; rfl
    · rw [hc]; simp [PromotedTagsWithRequiredImages, hp]
    · rw [hc]; simp [PromotedTagsWithRequiredImages, hp, hd]
  exact ⟨hempty, by simp [run, hempty]⟩

/-- C3 witness: a concrete configuration with `Disabled: true` yields the empty
result and the no-op success, for any pipeline lookup outcome. -/
theorem promotion_disabled_is_noop_witness :
    (∃ c pc, (some disabledConfig : Option ReleaseBuildConfiguration) = some c
      ∧ c.promotionConfiguration = some pc ∧ pc.disabled = true)
    ∧ PromotedTagsWithRequiredImages (some disabledConfig) ["a"] = ([], [])
    ∧ run (some disabledConfig) ["a"] "ci-op-1234" (Except.error "e")
        = RunResult.ok false none := by
  have h := promotion_disabled_is_noop (some disabledConfig) ["a"] "ci-op-1234"
    (Except.error "e")
    (Or.inr (Or.inr ⟨disabledConfig, disabledPromotionConfig, rfl, rfl, rfl⟩))
  exact ⟨⟨disabledConfig, disabledPromotionConfig, rfl, rfl, rfl⟩, h.1, h.2⟩

/-- C10: whenever the promoted name set is empty — even if the tag map is
non-empty because only the implicit binaries build-cache entry was added —
`run` returns success immediately, fetching no image stream and creating no
pod. -/
theorem run_noop_when_name_set_empty (configuration : Option ReleaseBuildConfiguration)
    (requiredImages : List String) (jobSpecNamespace : String)
    (getPipeline : Except String ImageStream)
    (h : (PromotedTagsWithRequiredImages configuration requiredImages).2 = []) :
    run configuration requiredImages jobSpecNamespace getPipeline
      = RunResult.ok false none := by
  simp [run, h]

/-- Concrete promotion configuration for the build-cache-only scenario. -/
def buildCachePromotionConfig : PromotionConfiguration :=
  { disabled := false, ns := "ocp", name := "", tag := "4.8", registryOverride := "",
    excludedImages := [], additionalImages := [], disableBuildCache := false }

/-- Concrete configuration with a binary build but no promoted images: the tag
map holds only the implicit build-cache entry while the name set is empty. -/
def buildCacheOnlyConfig : ReleaseBuildConfiguration :=
  { promotionConfiguration := some buildCachePromotionConfig, images := [],
    binaryBuildCommands := "make build",
    metadata := { org := "org", repo := "repo", branch := "main", variant := "" } }

/-- C10 witness: a configuration whose tag map contains only the binaries
build-cache entry (so it is non-empty) still makes `run` a no-op success. -/
theorem run_noop_when_name_set_empty_witness :
    (PromotedTagsWithRequiredImages (some buildCacheOnlyConfig) []).2 = []
    ∧ (PromotedTagsWithRequiredImages (some buildCacheOnlyConfig) []).1 ≠ []
    ∧ run (some buildCacheOnlyConfig) [] "ci-op-1234" (Except.error "e")
        = RunResult.ok false none :=
  ⟨by decide, by decide,
   run_noop_when_name_set_empty (some buildCacheOnlyConfig) [] "ci-op-1234"
     (Except.error "e") (by decide)⟩

theorem promotedTags_fst_cases (c : ReleaseBuildConfiguration)
    (pc : PromotionConfiguration) (requiredImages : List String)
    (hpc : c.promotionConfiguration = some pc) (hdis : pc.disabled = false) :
    ((c.binaryBuildCommands ≠ "" ∧ pc.disableBuildCache = false) →
      (PromotedTagsWithRequiredImages (some c) requiredImages).1
        = mapInsert (promoteFold pc (toPromote pc c.images requiredImages).1)
            PipelineImageStreamTagReferenceBinaries (BuildCacheFor c.metadata)
      ∧ mapFind (PromotedTagsWithRequiredImages (some c) requiredImages).1
          PipelineImageStreamTagReferenceBinaries = some (BuildCacheFor c.metadata))
    ∧ ((c.binaryBuildCommands = "" ∨ pc.disableBuildCache = true) →
      (PromotedTagsWithRequiredImages (some c) requiredImages).1
        = promoteFold pc (toPromote pc c.images requiredImages).1) := by
  constructor
  · intro hbc
    obtain ⟨hb1, hb2⟩ := hbc
    have heq : (PromotedTagsWithRequiredImages (some c) requiredImages).1
        = mapInsert (promoteFold pc (toPromote pc c.images requiredImages).1)
            PipelineImageStreamTagReferenceBinaries (BuildCacheFor c.metadata) := by
      simp [PromotedTagsWithRequiredImages, hpc, hdis, hb1, hb2]
    refine ⟨heq, ?_⟩
    rw [heq, mapFind_mapInsert]
    simp
  · intro hbc
    rcases hbc with hb | hb
    · simp [PromotedTagsWithRequiredImages, hpc, hdis, hb]
    · simp [PromotedTagsWithRequiredImages, hpc, hdis, hb]

/-- C9: with a binary build and the build cache enabled, the returned tag map
is the promote fold extended with the binaries-to-build-cache entry (so the
binaries pipeline tag maps to the reference derived from the metadata); with
no binary build or the cache disabled, the map is exactly the promote fold and
no such entry is added. -/
theorem promotedTags_build_cache_entry (c : ReleaseBuildConfiguration)
    (pc : PromotionConfiguration) (requiredImages : List String)
    (hpc : c.promotionConfiguration = some pc) (hdis : pc.disabled = false) :
    ((c.binaryBuildCommands ≠ "" ∧ pc.disableBuildCache = false) →
      (PromotedTagsWithRequiredImages (some c) requiredImages).1
        = mapInsert (promoteFold pc (toPromote pc c.images requiredImages).1)
            PipelineImageStreamTagReferenceBinaries (BuildCacheFor c.metadata)
      ∧ mapFind (PromotedTagsWithRequiredImages (some c) requiredImages).1
          PipelineImageStreamTagReferenceBinaries = some (BuildCacheFor c.metadata))
    ∧ ((c.binaryBuildCommands = "" ∨ pc.disableBuildCache = true) →
      (PromotedTagsWithRequiredImages (some c) requiredImages).1
        = promoteFold pc (toPromote pc c.images requiredImages).1) :=
  promotedTags_fst_cases c pc requiredImages hpc hdis

/-- C9 witness: the build-cache-only configuration maps the binaries pipeline
tag to the build-cache reference derived from its metadata. -/
theorem promotedTags_build_cache_entry_witness :
    (buildCacheOnlyConfig.promotionConfiguration = some buildCachePromotionConfig
      ∧ buildCachePromotionConfig.disabled = false
      ∧ buildCacheOnlyConfig.binaryBuildCommands ≠ ""
      ∧ buildCachePromotionConfig.disableBuildCache = false)
    ∧ mapFind (PromotedTagsWithRequiredImages (some buildCacheOnlyConfig) []).1
        PipelineImageStreamTagReferenceBinaries
      = some (BuildCacheFor buildCacheOnlyConfig.metadata) := by
  have h := promotedTags_build_cache_entry buildCacheOnlyConfig buildCachePromotionConfig []
    rfl rfl
  exact ⟨⟨rfl, rfl, by decide, rfl⟩, (h.1 ⟨by decide, rfl⟩).2⟩

theorem promoteFold_find_entry (pc : PromotionConfiguration) (l : List (String × String))
    (k : String) (ref : ImageStreamTagReference)
    (h : mapFind (promoteFold pc l) k = some ref) :
    ∃ dst, (dst, k) ∈ l ∧ ref = promoteDst pc dst := by
  rw [mapFind_promoteFold] at h
  cases hf : l.reverse.find? (fun p => p.2 = k) with
  | none => rw [hf] at h; simp [Option.elim] at h
  | some p =>
    rw [hf] at h
    simp only [Option.elim, Option.some.injEq] at h
    have hmem : p ∈ l := List.mem_reverse.mp (List.mem_of_find?_eq_some hf)
    have hk : p.2 = k := by simpa using List.find?_some hf
    refine ⟨p.1, ?_, h.symm⟩
    rw [← hk]
    simpa using hmem

theorem promoteDst_mode (pc : PromotionConfiguration) (dst : String) :
    (pc.name ≠ "" → promoteDst pc dst = { ns := pc.ns, name := pc.name, tag := dst })
    ∧ (pc.name = "" → promoteDst pc dst = { ns := pc.ns, name := dst, tag := pc.tag }) := by
  unfold promoteDst
  by_cases hn : pc.name = ""
  · rw [if_neg (fun hne => hne hn)]
    exact ⟨fun hne => absurd hn hne, fun _ => rfl⟩
  · rw [if_pos hn]
    exact ⟨fun _ => rfl, fun he => absurd he hn⟩

/-- C4: in a non-disabled configuration, every entry of the returned tag map
is either the implicit binaries build-cache entry or arises from a destination
tag `dst` of the tag map and follows the single active addressing mode with
that own tag in the varying slot: with `Name` set the reference is
`namespace/Name` with tag `dst`; otherwise it is `namespace/dst` with the
fixed `Tag`. -/
theorem promotedTags_single_addressing_mode (c : ReleaseBuildConfiguration)
    (pc : PromotionConfiguration) (requiredImages : List String)
    (k : String) (ref : ImageStreamTagReference)
    (hpc : c.promotionConfiguration = some pc) (hdis : pc.disabled = false)
    (hfind : mapFind (PromotedTagsWithRequiredImages (some c) requiredImages).1 k
      = some ref) :
    (k = PipelineImageStreamTagReferenceBinaries ∧ c.binaryBuildCommands ≠ ""
      ∧ pc.disableBuildCache = false ∧ ref = BuildCacheFor c.metadata)
    ∨ (∃ dst, (dst, k) ∈ (toPromote pc c.images requiredImages).1
        ∧ ref = promoteDst pc dst
        ∧ (pc.name ≠ "" → ref = { ns := pc.ns, name := pc.name, tag := dst })
        ∧ (pc.name = "" → ref = { ns := pc.ns, name := dst, tag := pc.tag })) := by
  have hfold : ∀ hf : mapFind (promoteFold pc (toPromote pc c.images requiredImages).1) k
        = some ref,
      ∃ dst, (dst, k) ∈ (toPromote pc c.images requiredImages).1
        ∧ ref = promoteDst pc dst
        ∧ (pc.name ≠ "" → ref = { ns := pc.ns, name := pc.name, tag := dst })
        ∧ (pc.name = "" → ref = { ns := pc.ns, name := dst, tag := pc.tag }) := by
    intro hf
    obtain ⟨dst, hmem, href⟩ := promoteFold_find_entry pc _ k ref hf
    have hm := promoteDst_mode pc dst
    exact ⟨dst, hmem, href,
      fun hn => by rw [href]; exact hm.1 hn,
      fun hn => by rw [href]; exact hm.2 hn⟩
  by_cases hbc : c.binaryBuildCommands ≠ "" ∧ pc.disableBuildCache = false
  · have h1 := (promotedTags_fst_cases c pc requiredImages hpc hdis).1 hbc
    rw [h1.1, mapFind_mapInsert] at hfind
    by_cases hk : PipelineImageStreamTagReferenceBinaries = k
    · rw [if_pos hk] at hfind
      exact Or.inl ⟨hk.symm, hbc.1, hbc.2, (Option.some_inj.mp hfind).symm⟩
    · rw [if_neg hk] at hfind
      exact Or.inr (hfold hfind)
  · have hbc' : c.binaryBuildCommands = "" ∨ pc.disableBuildCache = true := by
      by_cases hb : c.binaryBuildCommands = ""
      · exact Or.inl hb
      · cases hdb : pc.disableBuildCache
        · exact absurd ⟨hb, hdb⟩ hbc
        · exact Or.inr rfl
    have h2 := (promotedTags_fst_cases c pc requiredImages hpc hdis).2 hbc'
    rw [h2] at hfind
    exact Or.inr (hfold hfind)

/-- Concrete promotion configuration in fixed-name addressing mode. -/
def namedModePromotionConfig : PromotionConfiguration :=
  { disabled := false, ns := "ocp", name := "stream", tag := "", registryOverride := "",
    excludedImages := [], additionalImages := [], disableBuildCache := false }

/-- Concrete configuration promoting one image in fixed-name mode. -/
def namedModeConfig : ReleaseBuildConfiguration :=
  { promotionConfiguration := some namedModePromotionConfig,
    images := [{ toTag := "x", optional := false }], binaryBuildCommands := "",
    metadata := { org := "org", repo := "repo", branch := "main", variant := "" } }

/-- C4 witness: the entry for source `x` in the fixed-name configuration comes
from its own destination tag `x` of the tag map and is
`namespace/Name` with tag `x`. -/
theorem promotedTags_single_addressing_mode_witness :
    (namedModeConfig.promotionConfiguration = some namedModePromotionConfig
      ∧ namedModePromotionConfig.disabled = false
      ∧ mapFind (PromotedTagsWithRequiredImages (some namedModeConfig) []).1 "x"
        = some { ns := "ocp", name := "stream", tag := "x" })
    ∧ (("x" = PipelineImageStreamTagReferenceBinaries
        ∧ namedModeConfig.binaryBuildCommands ≠ ""
        ∧ namedModePromotionConfig.disableBuildCache = false
        ∧ ({ ns := "ocp", name := "stream", tag := "x" } : ImageStreamTagReference)
            = BuildCacheFor namedModeConfig.metadata)
      ∨ (∃ dst, (dst, "x") ∈ (toPromote namedModePromotionConfig namedModeConfig.images []).1
          ∧ ({ ns := "ocp", name := "stream", tag := "x" } : ImageStreamTagReference)
              = promoteDst namedModePromotionConfig dst
          ∧ (namedModePromotionConfig.name ≠ "" →
              ({ ns := "ocp", name := "stream", tag := "x" } : ImageStreamTagReference)
                = { ns := namedModePromotionConfig.ns, name := namedModePromotionConfig.name,
                    tag := dst })
          ∧ (namedModePromotionConfig.name = "" →
              ({ ns := "ocp", name := "stream", tag := "x" } : ImageStreamTagReference)
                = { ns := namedModePromotionConfig.ns, name := dst,
                    tag := namedModePromotionConfig.tag }))) :=
  ⟨⟨rfl, rfl, by decide⟩,
   promotedTags_single_addressing_mode namedModeConfig namedModePromotionConfig [] "x"
     { ns := "ocp", name := "stream", tag := "x" } rfl rfl (by decide)⟩

/-- Concrete promotion configuration whose additional image `c: b` collides
with the promoted image `b` on the source tag `b`. -/
def orderCexPromotionConfig : PromotionConfiguration :=
  { disabled := false, ns := "ocp", name := "stream", tag := "", registryOverride := "",
    excludedImages := [], additionalImages := [("c", "b")], disableBuildCache := false }

/-- C8 counterexample: the tag map computed by `toPromote` can contain two
destinations (`b` and `c`) sharing the source `b`; the promoted map is keyed
by source while the Go code enumerates the tag map in unspecified order, and
the two enumeration orders of that very map give different results at key
`b` — so two invocations on identical inputs need not return equal tag maps. -/
theorem promotedTags_iteration_order_dependent :
    (toPromote orderCexPromotionConfig [{ toTag := "b", optional := false }] []).1
      = [("b", "b"), ("c", "b")]
    ∧ List.Perm [("c", "b"), ("b", "b")] [("b", "b"), ("c", "b")]
    ∧ mapFind (promoteFold orderCexPromotionConfig [("b", "b"), ("c", "b")]) "b"
      ≠ mapFind (promoteFold orderCexPromotionConfig [("c", "b"), ("b", "b")]) "b" := by
  refine ⟨by decide, ?_, by decide⟩
  decide

/-- C8 (amended): the embedded computation is a pure function (two
applications to the same arguments are equal), and the promoted map is
independent of the enumeration order of the tag map provided no two
destinations share a source; with a shared source the surviving entry depends
on the enumeration order. -/
theorem promotedTags_pure_of_distinct_sources :
    (∀ (configuration : Option ReleaseBuildConfiguration) (requiredImages : List String),
      PromotedTagsWithRequiredImages configuration requiredImages
        = PromotedTagsWithRequiredImages configuration requiredImages)
    ∧ (∀ (pc : PromotionConfiguration) (l o : List (String × String)) (k : String),
        (l.map (fun p => p.2)).Nodup → o.Perm l →
        mapFind (promoteFold pc o) k = mapFind (promoteFold pc l) k) := by
  refine ⟨fun _ _ => rfl, ?_⟩
  intro pc l o k hnd hperm
  rw [mapFind_promoteFold, mapFind_promoteFold]
  have hfind : o.reverse.find? (fun p => p.2 = k) = l.reverse.find? (fun p => p.2 = k) := by
    apply find?_eq_of_perm_unique
    · exact (o.reverse_perm.trans hperm).trans l.reverse_perm.symm
    · intro a ha b hb hpa hpb
      have ha' : a ∈ l := hperm.mem_iff.mp (List.mem_reverse.mp ha)
      have hb' : b ∈ l := hperm.mem_iff.mp (List.mem_reverse.mp hb)
      have hak : a.2 = k := by simpa using hpa
      have hbk : b.2 = k := by simpa using hpb
      exact List.inj_on_of_nodup_map hnd ha' hb' (hak.trans hbk.symm)
  rw [hfind]

/-- C8 (amended) witness: with pairwise distinct sources the two enumeration
orders of the tag map agree at every key. -/
theorem promotedTags_pure_of_distinct_sources_witness :
    (([("b", "b"), ("c", "d")].map (fun p => p.2)).Nodup
      ∧ List.Perm [("c", "d"), ("b", "b")] [("b", "b"), ("c", "d")])
    ∧ mapFind (promoteFold orderCexPromotionConfig [("c", "d"), ("b", "b")]) "b"
      = mapFind (promoteFold orderCexPromotionConfig [("b", "b"), ("c", "d")]) "b" :=
  ⟨⟨by decide, by decide⟩,
   promotedTags_pure_of_distinct_sources.2 orderCexPromotionConfig [("b", "b"), ("c", "d")]
     [("c", "d"), ("b", "b")] "b" (by decide) (by decide)⟩

/-- C5: tags whose source has no recorded pull reference in the pipeline
stream's status contribute nothing to the mirror mapping: the mapping equals
the one computed from only the resolvable tags, and the computation is total
(no error is possible — the unresolvable tags are silently dropped). -/
theorem getImageMirrorTarget_skips_unbuilt (tags : List (String × ImageStreamTagReference))
    (p : ImageStream) (registry : String) :
    getImageMirrorTarget tags (some p) registry
      = getImageMirrorTarget
          (tags.filter (fun q => decide (findDockerImageReference p q.1 ≠ "")))
          (some p) registry := by
  unfold getImageMirrorTarget
  apply foldl_eq_foldl_filter
  intro a x hx
  have hempty : findDockerImageReference p x.1 = "" := by simpa using hx
  simp [hempty]

theorem sdata_append (a b : String) : (a ++ b).data = a.data ++ b.data := by
  cases a; cases b; rfl

theorem string_eq_of_data {a b : String} (h : a.data = b.data) : a = b := by
  cases a; cases b; exact congrArg String.mk h

theorem charListSplit_ne_nil (sep : Char) (l : List Char) : charListSplit sep l ≠ [] := by
  cases l with
  | nil => simp [charListSplit]
  | cons c t =>
    simp only [charListSplit]
    by_cases h : c = sep
    · simp [h]
    · rw [if_neg h]
      cases hm : charListSplit sep t <;> simp

theorem charListSplit_append_sep (sep : Char) (xs ys : List Char) (h : ¬sep ∈ xs) :
    charListSplit sep (xs ++ sep :: ys) = xs :: charListSplit sep ys := by
  induction xs with
  | nil => simp [charListSplit]
  | cons c t ih =>
    have hc : ¬c = sep := fun he => h (by rw [← he]; exact List.mem_cons_self c t)
    rw [List.cons_append, charListSplit]
    rw [if_neg hc, ih (fun hm => h (List.mem_cons_of_mem c hm))]

theorem charListSplit_no_sep (sep : Char) (l : List Char) (h : ¬sep ∈ l) :
    charListSplit sep l = [l] := by
  induction l with
  | nil => rfl
  | cons c t ih =>
    have hc : ¬c = sep := fun he => h (by rw [← he]; exact List.mem_cons_self c t)
    simp only [charListSplit]
    rw [if_neg hc, ih (fun hm => h (List.mem_cons_of_mem c hm))]

theorem isPrefixOf_append_self (l r : List Char) : l.isPrefixOf (l ++ r) = true := by
  induction l with
  | nil => cases r <;> rfl
  | cons a as ih => simp [List.isPrefixOf, ih]

theorem isPrefixOf_cons_append (o : Char) (os rest : List Char) :
    (o :: os).isPrefixOf (o :: (os ++ rest)) = true :=
  isPrefixOf_append_self (o :: os) rest

theorem drop_cons_append (o : Char) (os rest : List Char) :
    (o :: (os ++ rest)).drop (o :: os).length = rest := by
  simp [List.length_cons, List.drop_succ_cons, List.drop_left]

theorem replaceFirst_of_leading (old new rest : List Char) :
    replaceFirst old new (old ++ rest) = new ++ rest := by
  cases old with
  | nil =>
    cases rest with
    | nil => simp [replaceFirst]
    | cons c t => simp [replaceFirst, List.isPrefixOf]
  | cons o os =>
    rw [List.cons_append, replaceFirst]
    rw [isPrefixOf_cons_append, if_pos rfl, drop_cons_append]

/-- C6: a pull reference on an internal registry host (recognized by the
`":5000"` marker) is rewritten so that its host becomes the host of the
stream's public repository while path and digest/tag are preserved; and when
no public host can be split out of the public repository field the reference
is returned unchanged rather than failing. -/
theorem getPublicImageReference_spec :
    (∀ host path pubHost pubRest : String,
      '/' ∉ host.data → '/' ∉ pubHost.data →
      goContains (host ++ "/" ++ path) ":5000" = true →
      getPublicImageReference (host ++ "/" ++ path) (pubHost ++ "/" ++ pubRest)
        = pubHost ++ "/" ++ path)
    ∧ (∀ ref public : String, '/' ∉ public.data →
      getPublicImageReference ref public = ref) := by
  constructor
  · intro host path pubHost pubRest hhost hpub hint
    have hd1 : (host ++ "/" ++ path).data = host.data ++ '/' :: path.data := by
      rw [sdata_append, sdata_append]
      simp
    have hd2 : (pubHost ++ "/" ++ pubRest).data = pubHost.data ++ '/' :: pubRest.data := by
      rw [sdata_append, sdata_append]
      simp
    have hd3 : (pubHost ++ "/" ++ path).data = pubHost.data ++ '/' :: path.data := by
      rw [sdata_append, sdata_append]
      simp
    have hs1 : goSplit (pubHost ++ "/" ++ pubRest) '/'
        = pubHost :: (charListSplit '/' pubRest.data).map (fun l => { data := l }) := by
      unfold goSplit
      rw [hd2, charListSplit_append_sep '/' _ _ hpub]
      rfl
    have hs2 : goSplit (host ++ "/" ++ path) '/'
        = host :: (charListSplit '/' path.data).map (fun l => { data := l }) := by
      unfold goSplit
      rw [hd1, charListSplit_append_sep '/' _ _ hhost]
      rfl
    have hlen1 : ¬(pubHost
        :: (charListSplit '/' pubRest.data).map (fun l => ({ data := l } : String))).length
        < 2 := by
      have h0 : 0 < (charListSplit '/' pubRest.data).length :=
        List.length_pos.mpr (charListSplit_ne_nil '/' pubRest.data)
      simp only [List.length_cons, List.length_map]
      omega
    have hlen2 : ¬(host
        :: (charListSplit '/' path.data).map (fun l => ({ data := l } : String))).length
        < 2 := by
      have h0 : 0 < (charListSplit '/' path.data).length :=
        List.length_pos.mpr (charListSplit_ne_nil '/' path.data)
      simp only [List.length_cons, List.length_map]
      omega
    unfold getPublicImageReference
    rw [hint]
    simp only [Bool.not_true, Bool.false_eq_true, if_false]
    rw [hs1, if_neg hlen1, hs2, if_neg hlen2]
    show goReplaceOnce (host ++ "/" ++ path) host pubHost = pubHost ++ "/" ++ path
    apply string_eq_of_data
    unfold goReplaceOnce
    show replaceFirst host.data pubHost.data (host ++ "/" ++ path).data
      = (pubHost ++ "/" ++ path).data
    rw [hd1, hd3]
    exact replaceFirst_of_leading host.data pubHost.data ('/' :: path.data)
  · intro ref public hnp
    unfold getPublicImageReference
    by_cases hc : goContains ref ":5000" = true
    · rw [hc]
      simp only [Bool.not_true, Bool.false_eq_true, if_false]
      have hs : goSplit public '/' = [public] := by
        unfold goSplit
        rw [charListSplit_no_sep '/' public.data hnp]
        rfl
      rw [hs]
      simp
    · have hcf : goContains ref ":5000" = false := by
        cases h : goContains ref ":5000"
        · rfl
        · exact absurd h hc
      rw [hcf]
      simp

/-- C6 witness: the spec's concrete scenario — `foo:5000/ns/img@sha256:abc`
with public repository `bar.example.com/ns/img` rewrites to
`bar.example.com/ns/img@sha256:abc`. -/
theorem getPublicImageReference_spec_witness :
    ('/' ∉ ("foo:5000" : String).data ∧ '/' ∉ ("bar.example.com" : String).data
      ∧ goContains ("foo:5000" ++ "/" ++ "ns/img@sha256:abc") ":5000" = true)
    ∧ getPublicImageReference ("foo:5000" ++ "/" ++ "ns/img@sha256:abc")
        ("bar.example.com" ++ "/" ++ "ns/img")
      = "bar.example.com" ++ "/" ++ "ns/img@sha256:abc" :=
  ⟨⟨by decide, by decide, by decide⟩,
   getPublicImageReference_spec.1 "foo:5000" "ns/img@sha256:abc" "bar.example.com" "ns/img"
     (by decide) (by decide) (by decide)⟩

/-- C7: the mirror-map keys are serialized into the promotion pod's arguments
in sorted (lexicographic) order, and the pod is invariant under re-enumeration
of the mirror map: any permutation of a duplicate-key-free mapping produces
identical pod arguments. -/
theorem getPromotionPod_sorted_deterministic (m m' : List (String × String)) (ns : String)
    (hnd : (m.map (fun p => p.1)).Nodup) (hperm : m'.Perm m) :
    List.Sorted (fun a b : String => a ≤ b) (promotionSortedKeys m)
    ∧ getPromotionPod m' ns = getPromotionPod m ns := by
  constructor
  · exact List.sorted_insertionSort _ _
  · have hkeys : promotionSortedKeys m' = promotionSortedKeys m := by
      unfold promotionSortedKeys
      exact List.eq_of_perm_of_sorted
        (((List.perm_insertionSort _ _).trans
          (hperm.map (fun p => p.1))).trans (List.perm_insertionSort _ _).symm)
        (List.sorted_insertionSort _ _) (List.sorted_insertionSort _ _)
    have hlookup : (fun k => k ++ "=" ++ (mapFind m' k).getD "")
        = (fun k => k ++ "=" ++ (mapFind m k).getD "") := by
      funext k
      rw [mapFind_perm m m' hperm hnd k]
    unfold getPromotionPod
    rw [hkeys, hlookup]

/-- C7 witness: a two-entry mirror map given in either enumeration order
yields the same pod, and its serialization keys are sorted. -/
theorem getPromotionPod_sorted_deterministic_witness :
    (([("s1", "d1"), ("s2", "d2")].map (fun p => p.1)).Nodup
      ∧ List.Perm [("s2", "d2"), ("s1", "d1")] [("s1", "d1"), ("s2", "d2")])
    ∧ List.Sorted (fun a b : String => a ≤ b)
        (promotionSortedKeys [("s1", "d1"), ("s2", "d2")])
    ∧ getPromotionPod [("s2", "d2"), ("s1", "d1")] "ci-op-1234"
      = getPromotionPod [("s1", "d1"), ("s2", "d2")] "ci-op-1234" := by
  have h := getPromotionPod_sorted_deterministic [("s1", "d1"), ("s2", "d2")]
    [("s2", "d2"), ("s1", "d1")] "ci-op-1234" (by decide) (by decide)
  exact ⟨⟨by decide, by decide⟩, h.1, h.2⟩
